import Mathlib

/-!
# Bounded-buffer producer/consumer (`codes/producerConsumer.c`)

A shallow embedding of the two thread bodies `produce` and `consume`
as a statement-level interleaving semantics, followed by the proofs of
the synchronisation properties of the protocol.

Modelling conventions

* `shared.count` is a C `int`; it is modelled by `Int`.  It is proved
  to stay in `[0, NBUFF]`, so no overflow can occur.
* the value of a POSIX semaphore is an unsigned counter, modelled by `Nat`;
  `sem_wait` is enabled only on a positive value and decrements it,
  `sem_post` increments it and is always enabled.
* the loop index `i` and the bound `nitems` are C `int`s, modelled by `Int`
  (`i` never exceeds `nitems`, so `i++` does not overflow).
* every C statement of a thread body is one atomic step; a blocked or
  returned thread has no step (`none`).
* the initial state is the one set up by `main` when the three `sem_open`
  calls create fresh semaphores (values `1`, `NBUFF`, `0`).
* `NBUFF` (a `#define`, `10` in the source) and `nitems` (a global, `2` in the
  source) are parameters.  The source
  uses the one global `nitems` in both loops; the step function of the
  system takes the two bounds separately so that the mismatched
  configuration discussed by the specification can be stated, and the
  program itself is the instance in which both bounds are equal.
* `out` is the standard output, one entry per `printf`;  `muts` is a
  history variable that logs which thread performed each mutation of
  `shared.count`; no step ever reads either of them.
-/

namespace ProducerConsumer

/-- The two threads created by `main`. -/
inductive Role
  | producer
  | consumer
  deriving DecidableEq, Repr

/-- Program points of a thread body.  Both bodies have the same shape:
a `for` loop over `i` from `0` to `nitems`, whose body waits on the
thread's counting semaphore, waits on the mutex, updates `shared.count`,
prints, sleeps, posts the mutex and posts the other counting semaphore.  A thread is *at* a program point when the statement of
that point is the next one it executes. -/
inductive PC
  | forTest    -- the test `i < nitems` (initially, with `i = 0`)
  | waitCount  -- `sem_wait(shared.empty)` (line 79) / `sem_wait(shared.full)` (line 96)
  | waitMutex  -- `sem_wait(shared.mutex)` (lines 80, 97)
  | update     -- `shared.count++` (line 82) / `shared.count--` (line 100)
  | print      -- `printf(...)` (lines 83, 101)
  | sleep      -- `sleep(1)` (lines 84, 102)
  | postMutex  -- `sem_post(shared.mutex)` (lines 85, 103)
  | postCount  -- `sem_post(shared.full)` (line 86) / `sem_post(shared.empty)` (line 104)
  | forIncr    -- the `i++` of the `for`
  | returned   -- after `return NULL`
  deriving DecidableEq, Repr

/-- Local state of one thread: its program point and its loop index `i`. -/
structure Task where
  pc : PC
  i : Int
  deriving DecidableEq, Repr

/-- Global state: the fields of `shared` that are used (`count` and the
values of the three semaphores), the two threads, the standard output and
the mutation history. -/
structure State where
  count : Int
  mutex : Nat
  empty : Nat
  full : Nat
  prod : Task
  cons : Task
  out : List (Role × Int)
  muts : List Role
  deriving DecidableEq, Repr

/-- State after the three `sem_open` calls of `main` (values `1`, `NBUFF`,
`0`), with `shared.count` zero-initialised and both threads at the start of
their loop. -/
def init (NBUFF : Nat) : State :=
  { count := 0, mutex := 1, empty := NBUFF, full := 0,
    prod := ⟨.forTest, 0⟩, cons := ⟨.forTest, 0⟩, out := [], muts := [] }

/-- One step of the thread body `produce` (lines 75-89); `none` when the
thread is blocked in a `sem_wait` or has returned. -/
def produce (nitems : Int) (s : State) : Option State :=
  match s.prod.pc with
  | .forTest =>
      if s.prod.i < nitems then some { s with prod := ⟨.waitCount, s.prod.i⟩ }
      else some { s with prod := ⟨.returned, s.prod.i⟩ }
  | .waitCount =>
      if 0 < s.empty then
        some { s with empty := s.empty - 1, prod := ⟨.waitMutex, s.prod.i⟩ }
      else none
  | .waitMutex =>
      if 0 < s.mutex then
        some { s with mutex := s.mutex - 1, prod := ⟨.update, s.prod.i⟩ }
      else none
  | .update =>
      some { s with count := s.count + 1, muts := s.muts ++ [Role.producer],
                    prod := ⟨.print, s.prod.i⟩ }
  | .print =>
      some { s with out := s.out ++ [(Role.producer, s.count)], prod := ⟨.sleep, s.prod.i⟩ }
  | .sleep => some { s with prod := ⟨.postMutex, s.prod.i⟩ }
  | .postMutex => some { s with mutex := s.mutex + 1, prod := ⟨.postCount, s.prod.i⟩ }
  | .postCount => some { s with full := s.full + 1, prod := ⟨.forIncr, s.prod.i⟩ }
  | .forIncr => some { s with prod := ⟨.forTest, s.prod.i + 1⟩ }
  | .returned => none

/-- One step of the thread body `consume` (lines 92-107); `none` when the
thread is blocked in a `sem_wait` or has returned. -/
def consume (nitems : Int) (s : State) : Option State :=
  match s.cons.pc with
  | .forTest =>
      if s.cons.i < nitems then some { s with cons := ⟨.waitCount, s.cons.i⟩ }
      else some { s with cons := ⟨.returned, s.cons.i⟩ }
  | .waitCount =>
      if 0 < s.full then
        some { s with full := s.full - 1, cons := ⟨.waitMutex, s.cons.i⟩ }
      else none
  | .waitMutex =>
      if 0 < s.mutex then
        some { s with mutex := s.mutex - 1, cons := ⟨.update, s.cons.i⟩ }
      else none
  | .update =>
      some { s with count := s.count - 1, muts := s.muts ++ [Role.consumer],
                    cons := ⟨.print, s.cons.i⟩ }
  | .print =>
      some { s with out := s.out ++ [(Role.consumer, s.count)], cons := ⟨.sleep, s.cons.i⟩ }
  | .sleep => some { s with cons := ⟨.postMutex, s.cons.i⟩ }
  | .postMutex => some { s with mutex := s.mutex + 1, cons := ⟨.postCount, s.cons.i⟩ }
  | .postCount => some { s with empty := s.empty + 1, cons := ⟨.forIncr, s.cons.i⟩ }
  | .forIncr => some { s with cons := ⟨.forTest, s.cons.i + 1⟩ }
  | .returned => none

/-- One step of the system: the scheduler picks a thread, which executes its
next statement.  `np` is the loop bound read by `produce`, `nc` the one read
by `consume`. -/
def step (np nc : Int) : Role → State → Option State
  | .producer, s => produce np s
  | .consumer, s => consume nc s

/-- Run a schedule (the list of the threads picked, in order) from a state;
`none` when the schedule picks a thread that has no step. -/
def run (np nc : Int) : List Role → State → Option State
  | [], s => some s
  | t :: ts, s => (step np nc t s).bind (run np nc ts)

/-- The thread is inside the section guarded by the mutex: it has passed
`sem_wait(shared.mutex)` and has not yet executed `sem_post(shared.mutex)`. -/
def PC.inCS : PC → Bool
  | .update | .print | .sleep | .postMutex => true
  | _ => false

/-- The thread has passed the `sem_wait` on its counting semaphore and has
not yet updated `shared.count`. -/
def PC.beforeUpdate : PC → Bool
  | .waitMutex | .update => true
  | _ => false

/-- The thread has updated `shared.count` and has not yet executed the
`sem_post` on the other counting semaphore. -/
def PC.afterUpdate : PC → Bool
  | .print | .sleep | .postMutex | .postCount => true
  | _ => false

/-- The thread is in flight: it has passed the `sem_wait` on its counting
semaphore in the current iteration and has not yet executed the `sem_post` on
the other counting semaphore. -/
def PC.inFlight (pc : PC) : Bool := pc.beforeUpdate || pc.afterUpdate

/-- The update of the current iteration is done and `i` is not yet
incremented. -/
def PC.iterDone : PC → Bool
  | .print | .sleep | .postMutex | .postCount | .forIncr => true
  | _ => false

/-- The thread is inside the loop body or at the `i++` (the test
`i < nitems` has succeeded for the current `i`). -/
def PC.inBody : PC → Bool
  | .forTest | .returned => false
  | _ => true

/-- The thread is at its `printf`. -/
def PC.atPrint : PC → Bool
  | .print => true
  | _ => false

/-- Both threads have returned. -/
def State.finished (s : State) : Bool :=
  s.prod.pc == .returned && s.cons.pc == .returned

/-- Number of steps a thread has executed: nine per completed iteration plus
its position in the current one. -/
def Task.progress (t : Task) : Int :=
  9 * t.i +
    match t.pc with
    | .forTest => 0 | .waitCount => 1 | .waitMutex => 2 | .update => 3 | .print => 4
    | .sleep => 5 | .postMutex => 6 | .postCount => 7 | .forIncr => 8 | .returned => 1

/-- The first `n` entries of the alternating sequence of mutations
produce, consume, produce, consume, ... -/
def altMuts (n : Nat) : List Role :=
  (List.range n).map fun k => if k % 2 = 0 then Role.producer else Role.consumer

/-- The first `n` lines of the alternating output: the producer prints
occupancy `1`, the consumer prints occupancy `0`, and so on. -/
def altOut (n : Nat) : List (Role × Int) :=
  (List.range n).map fun k => if k % 2 = 0 then (Role.producer, 1) else (Role.consumer, 0)

/-- Additional invariant for capacity `1`: the histories are alternating and
`shared.count` is the parity of the number of mutations. -/
structure AltInv (s : State) : Prop where
  muts_alt : s.muts = altMuts s.muts.length
  out_alt : s.out = altOut s.out.length
  parity : s.count = ((s.muts.length % 2 : Nat) : Int)

/-- The inductive invariant of the system. -/
structure Inv (NBUFF : Nat) (np nc : Int) (s : State) : Prop where
  mutex_eq : s.mutex + s.prod.pc.inCS.toNat + s.cons.pc.inCS.toNat = 1
  empty_eq : (s.empty : Int) + s.prod.pc.beforeUpdate.toNat + s.cons.pc.afterUpdate.toNat
      + s.count = NBUFF
  full_eq : (s.full : Int) + s.prod.pc.afterUpdate.toNat + s.cons.pc.beforeUpdate.toNat
      = s.count
  count_eq : s.count = (s.prod.i + s.prod.pc.iterDone.toNat) - (s.cons.i + s.cons.pc.iterDone.toNat)
  prod_nonneg : 0 ≤ s.prod.i
  prod_body : s.prod.pc.inBody = true → s.prod.i < np
  prod_ret : s.prod.pc = .returned → np ≤ s.prod.i
  prod_le : s.prod.i ≤ max np 0
  cons_nonneg : 0 ≤ s.cons.i
  cons_body : s.cons.pc.inBody = true → s.cons.i < nc
  cons_ret : s.cons.pc = .returned → nc ≤ s.cons.i
  cons_le : s.cons.i ≤ max nc 0
  muts_prod : (s.muts.count Role.producer : Int) = s.prod.i + s.prod.pc.iterDone.toNat
  muts_cons : (s.muts.count Role.consumer : Int) = s.cons.i + s.cons.pc.iterDone.toNat
  out_len : s.out.length + s.prod.pc.atPrint.toNat + s.cons.pc.atPrint.toNat = s.muts.length

/-- One full iteration of a thread's loop body is nine steps. -/
def iter (t : Role) : List Role := List.replicate 9 t

/-- Schedule in which the producer runs two whole iterations. -/
def schedTwoProduced : List Role := iter .producer ++ iter .producer

/-- State reached by `schedTwoProduced` with `NBUFF = 10`, `nitems = 2`. -/
def stateTwoProduced : State :=
  { count := 2, mutex := 1, empty := 8, full := 2,
    prod := ⟨.forTest, 2⟩, cons := ⟨.forTest, 0⟩,
    out := [(.producer, 1), (.producer, 2)], muts := [.producer, .producer] }

/-- Schedule in which the producer enters the guarded section and the consumer
reaches its first `sem_wait`. -/
def schedProducerInside : List Role :=
  [.producer, .producer, .producer, .producer, .consumer]

/-- State reached by `schedProducerInside` with `NBUFF = 10`, `nitems = 2`:
the producer has executed `shared.count++` and is at its `printf`, the
consumer is at `sem_wait(shared.full)`. -/
def stateProducerInside : State :=
  { count := 1, mutex := 0, empty := 9, full := 0,
    prod := ⟨.print, 0⟩, cons := ⟨.waitCount, 0⟩,
    out := [], muts := [.producer] }

/-- A complete run for `nitems = 2`: produce, produce, consume, consume, with
the two threads interleaved at statement level. -/
def schedComplete2 : List Role :=
  [.producer, .consumer] ++ List.replicate 8 .producer ++
    [.producer, .consumer, .producer, .consumer, .consumer, .consumer, .consumer, .consumer,
     .producer, .consumer, .producer, .consumer, .producer, .consumer, .producer, .producer,
     .producer, .consumer, .producer, .producer] ++ List.replicate 8 .consumer

/-- Final state of `schedComplete2` with `NBUFF = 10`, `nitems = 2`. -/
def stateComplete2 : State :=
  { count := 0, mutex := 1, empty := 10, full := 0,
    prod := ⟨.returned, 2⟩, cons := ⟨.returned, 2⟩,
    out := [(.producer, 1), (.consumer, 0), (.producer, 1), (.consumer, 0)],
    muts := [.producer, .consumer, .producer, .consumer] }

/-- A complete run in which the threads take turns, one whole iteration
each, `n` times, and then both leave their loop. -/
def schedAlternate : Nat → List Role
  | 0 => [.producer, .consumer]
  | n + 1 => iter .producer ++ iter .consumer ++ schedAlternate n

/-- Final state of `schedAlternate 3` with `NBUFF = 1`, `nitems = 3`. -/
def stateAlternate3 : State :=
  { count := 0, mutex := 1, empty := 1, full := 0,
    prod := ⟨.returned, 3⟩, cons := ⟨.returned, 3⟩,
    out := [(.producer, 1), (.consumer, 0), (.producer, 1), (.consumer, 0), (.producer, 1),
      (.consumer, 0)],
    muts := [.producer, .consumer, .producer, .consumer, .producer, .consumer] }

/-- Final state of `schedAlternate 5` with `NBUFF = 1`, `nitems = 5`. -/
def stateAlternate5 : State :=
  { count := 0, mutex := 1, empty := 1, full := 0,
    prod := ⟨.returned, 5⟩, cons := ⟨.returned, 5⟩,
    out := [(.producer, 1), (.consumer, 0), (.producer, 1), (.consumer, 0), (.producer, 1),
      (.consumer, 0), (.producer, 1), (.consumer, 0), (.producer, 1), (.consumer, 0)],
    muts := [.producer, .consumer, .producer, .consumer, .producer, .consumer, .producer,
      .consumer, .producer, .consumer] }

/-- Total number of steps accounted for by the two program counters. -/
def State.progress (s : State) : Int := s.prod.progress + s.cons.progress

/-- Upper bound on the length of any execution with loop bounds `np`, `nc`:
nine steps per iteration and one final loop test per thread. -/
def stepBound (np nc : Int) : Int := (9 * max np 0 + 1) + (9 * max nc 0 + 1)

/-- Schedule after which both threads are in flight: the producer completes
one iteration, the consumer takes the filled slot, and the producer takes a
second empty slot. -/
def schedBothInFlight : List Role :=
  List.replicate 8 .producer ++ [.consumer, .consumer, .producer, .producer, .producer]

/-- State reached by `schedBothInFlight` with `NBUFF = 10`, `nitems = 2`: both
threads are at `sem_wait(shared.mutex)`. -/
def stateBothInFlight : State :=
  { count := 1, mutex := 1, empty := 8, full := 0,
    prod := ⟨.waitMutex, 1⟩, cons := ⟨.waitMutex, 0⟩,
    out := [(.producer, 1)], muts := [.producer] }

/-- With `produce` bounded by `3` and `consume` by `2`: the producer runs
its three iterations and returns, then the consumer runs its two and returns. -/
def schedProducerAhead : List Role :=
  iter .producer ++ iter .producer ++ iter .producer ++ [.producer] ++
    iter .consumer ++ iter .consumer ++ [.consumer]

/-- Final state of `schedProducerAhead` with `NBUFF = 10`. -/
def stateProducerAhead : State :=
  { count := 1, mutex := 1, empty := 9, full := 1,
    prod := ⟨.returned, 3⟩, cons := ⟨.returned, 2⟩,
    out := [(.producer, 1), (.producer, 2), (.producer, 3), (.consumer, 2), (.consumer, 1)],
    muts := [.producer, .producer, .producer, .consumer, .consumer] }

/-- With `produce` bounded by `2` and `consume` by `3`: the producer runs
its two iterations and returns, the consumer runs two iterations and reaches
its third `sem_wait(shared.full)`. -/
def schedConsumerStarved : List Role :=
  iter .producer ++ iter .producer ++ [.producer] ++
    iter .consumer ++ iter .consumer ++ [.consumer]

/-- State reached by `schedConsumerStarved` with `NBUFF = 10`. -/
def stateConsumerStarved : State :=
  { count := 0, mutex := 1, empty := 10, full := 0,
    prod := ⟨.returned, 2⟩, cons := ⟨.waitCount, 2⟩,
    out := [(.producer, 1), (.producer, 2), (.consumer, 1), (.consumer, 0)],
    muts := [.producer, .producer, .consumer, .consumer] }

/-! ## Invariants and proofs -/

/-- The initial state satisfies the invariant. -/
theorem inv_init (NBUFF : Nat) (np nc : Int) : Inv NBUFF np nc (init NBUFF) := by
  constructor <;> simp [ProducerConsumer.init, PC.inCS.eq_1, PC.inCS.eq_2, PC.inCS.eq_3, PC.inCS.eq_4, PC.inCS.eq_5,
      PC.beforeUpdate.eq_1, PC.beforeUpdate.eq_2, PC.beforeUpdate.eq_3,
      PC.afterUpdate.eq_1, PC.afterUpdate.eq_2, PC.afterUpdate.eq_3, PC.afterUpdate.eq_4,
      PC.afterUpdate.eq_5, PC.iterDone.eq_1, PC.iterDone.eq_2, PC.iterDone.eq_3,
      PC.iterDone.eq_4, PC.iterDone.eq_5, PC.iterDone.eq_6, PC.inBody.eq_1, PC.inBody.eq_2,
      PC.inBody.eq_3, PC.atPrint.eq_1, PC.atPrint.eq_2]

/-- Every step of `produce` preserves the invariant. -/
theorem inv_produce {NBUFF : Nat} {np nc : Int} {s s' : State}
    (h : Inv NBUFF np nc s) (hs : produce np s = some s') : Inv NBUFF np nc s' := by
  obtain ⟨h1, h2, h3, h4, h5, h6, h7, h8, h9, h10, h11, h12, h13, h14, h15⟩ := h
  obtain ⟨count, mutex, empty, full, ⟨ppc, pi⟩, ⟨cpc, ci⟩, out, muts⟩ := s
  cases ppc <;> simp only [ProducerConsumer.produce] at hs <;>
    (try split at hs) <;> simp only [Option.some.injEq, reduceCtorEq] at hs <;>
    subst hs <;>
    simp only [PC.inCS.eq_1, PC.inCS.eq_2, PC.inCS.eq_3, PC.inCS.eq_4, PC.inCS.eq_5,
      PC.beforeUpdate.eq_1, PC.beforeUpdate.eq_2, PC.beforeUpdate.eq_3,
      PC.afterUpdate.eq_1, PC.afterUpdate.eq_2, PC.afterUpdate.eq_3, PC.afterUpdate.eq_4,
      PC.afterUpdate.eq_5, PC.iterDone.eq_1, PC.iterDone.eq_2, PC.iterDone.eq_3,
      PC.iterDone.eq_4, PC.iterDone.eq_5, PC.iterDone.eq_6, PC.inBody.eq_1, PC.inBody.eq_2,
      PC.inBody.eq_3, PC.atPrint.eq_1, PC.atPrint.eq_2,
      Bool.toNat_true, Bool.toNat_false, Nat.cast_zero, Nat.cast_one,
      Nat.cast_add, List.count_append, List.length_append, List.count_cons, List.count_nil,
      List.length_cons, List.length_nil, reduceCtorEq, imp_self, false_implies, true_implies,
      implies_true, forall_const, Bool.false_eq_true, beq_self_eq_true, beq_iff_eq,
      if_true, if_false, ite_true, ite_false, reduceIte]
      at h1 h2 h3 h4 h5 h6 h7 h8 h9 h10 h11 h12 h13 h14 h15 <;>
    constructor <;>
    simp only [PC.inCS.eq_1, PC.inCS.eq_2, PC.inCS.eq_3, PC.inCS.eq_4, PC.inCS.eq_5,
      PC.beforeUpdate.eq_1, PC.beforeUpdate.eq_2, PC.beforeUpdate.eq_3,
      PC.afterUpdate.eq_1, PC.afterUpdate.eq_2, PC.afterUpdate.eq_3, PC.afterUpdate.eq_4,
      PC.afterUpdate.eq_5, PC.iterDone.eq_1, PC.iterDone.eq_2, PC.iterDone.eq_3,
      PC.iterDone.eq_4, PC.iterDone.eq_5, PC.iterDone.eq_6, PC.inBody.eq_1, PC.inBody.eq_2,
      PC.inBody.eq_3, PC.atPrint.eq_1, PC.atPrint.eq_2,
      Bool.toNat_true, Bool.toNat_false, Nat.cast_zero, Nat.cast_one,
      Nat.cast_add, List.count_append, List.length_append, List.count_cons, List.count_nil,
      List.length_cons, List.length_nil, reduceCtorEq, imp_self, false_implies, true_implies,
      implies_true, forall_const, Bool.false_eq_true, beq_self_eq_true, beq_iff_eq,
      if_true, if_false, ite_true, ite_false, reduceIte] <;>
    first | assumption | omega

/-- Every step of `consume` preserves the invariant. -/
theorem inv_consume {NBUFF : Nat} {np nc : Int} {s s' : State}
    (h : Inv NBUFF np nc s) (hs : consume nc s = some s') : Inv NBUFF np nc s' := by
  obtain ⟨h1, h2, h3, h4, h5, h6, h7, h8, h9, h10, h11, h12, h13, h14, h15⟩ := h
  obtain ⟨count, mutex, empty, full, ⟨ppc, pi⟩, ⟨cpc, ci⟩, out, muts⟩ := s
  cases cpc <;> simp only [ProducerConsumer.consume] at hs <;>
    (try split at hs) <;> simp only [Option.some.injEq, reduceCtorEq] at hs <;>
    subst hs <;>
    simp only [PC.inCS.eq_1, PC.inCS.eq_2, PC.inCS.eq_3, PC.inCS.eq_4, PC.inCS.eq_5,
      PC.beforeUpdate.eq_1, PC.beforeUpdate.eq_2, PC.beforeUpdate.eq_3,
      PC.afterUpdate.eq_1, PC.afterUpdate.eq_2, PC.afterUpdate.eq_3, PC.afterUpdate.eq_4,
      PC.afterUpdate.eq_5, PC.iterDone.eq_1, PC.iterDone.eq_2, PC.iterDone.eq_3,
      PC.iterDone.eq_4, PC.iterDone.eq_5, PC.iterDone.eq_6, PC.inBody.eq_1, PC.inBody.eq_2,
      PC.inBody.eq_3, PC.atPrint.eq_1, PC.atPrint.eq_2,
      Bool.toNat_true, Bool.toNat_false, Nat.cast_zero, Nat.cast_one,
      Nat.cast_add, List.count_append, List.length_append, List.count_cons, List.count_nil,
      List.length_cons, List.length_nil, reduceCtorEq, imp_self, false_implies, true_implies,
      implies_true, forall_const, Bool.false_eq_true, beq_self_eq_true, beq_iff_eq,
      if_true, if_false, ite_true, ite_false, reduceIte]
      at h1 h2 h3 h4 h5 h6 h7 h8 h9 h10 h11 h12 h13 h14 h15 <;>
    constructor <;>
    simp only [PC.inCS.eq_1, PC.inCS.eq_2, PC.inCS.eq_3, PC.inCS.eq_4, PC.inCS.eq_5,
      PC.beforeUpdate.eq_1, PC.beforeUpdate.eq_2, PC.beforeUpdate.eq_3,
      PC.afterUpdate.eq_1, PC.afterUpdate.eq_2, PC.afterUpdate.eq_3, PC.afterUpdate.eq_4,
      PC.afterUpdate.eq_5, PC.iterDone.eq_1, PC.iterDone.eq_2, PC.iterDone.eq_3,
      PC.iterDone.eq_4, PC.iterDone.eq_5, PC.iterDone.eq_6, PC.inBody.eq_1, PC.inBody.eq_2,
      PC.inBody.eq_3, PC.atPrint.eq_1, PC.atPrint.eq_2,
      Bool.toNat_true, Bool.toNat_false, Nat.cast_zero, Nat.cast_one,
      Nat.cast_add, List.count_append, List.length_append, List.count_cons, List.count_nil,
      List.length_cons, List.length_nil, reduceCtorEq, imp_self, false_implies, true_implies,
      implies_true, forall_const, Bool.false_eq_true, beq_self_eq_true, beq_iff_eq,
      if_true, if_false, ite_true, ite_false, reduceIte] <;>
    first | assumption | omega

/-- Every step of the system preserves the invariant. -/
theorem inv_step {NBUFF : Nat} {np nc : Int} {s s' : State} {t : Role}
    (h : Inv NBUFF np nc s) (hs : step np nc t s = some s') : Inv NBUFF np nc s' := by
  cases t
  · exact inv_produce h hs
  · exact inv_consume h hs

/-- Every execution preserves the invariant. -/
theorem inv_run {NBUFF : Nat} {np nc : Int} :
    ∀ (sched : List Role) {s s' : State},
      Inv NBUFF np nc s → run np nc sched s = some s' → Inv NBUFF np nc s'
  | [], s, s', h, hr => by
      simp only [ProducerConsumer.run, Option.some.injEq] at hr
      exact hr ▸ h
  | t :: ts, s, s', h, hr => by
      simp only [ProducerConsumer.run] at hr
      cases hst : step np nc t s with
      | none => simp [hst] at hr
      | some s1 =>
          rw [hst, Option.some_bind] at hr
          exact inv_run ts (inv_step h hst) hr

/-- Every state reached from the initial state satisfies the invariant. -/
theorem inv_of_run {NBUFF : Nat} {np nc : Int} {sched : List Role} {s : State}
    (h : run np nc sched (init NBUFF) = some s) : Inv NBUFF np nc s :=
  inv_run sched (inv_init NBUFF np nc) h

theorem PC.inFlight_toNat (pc : PC) :
    pc.inFlight.toNat = pc.beforeUpdate.toNat + pc.afterUpdate.toNat := by
  cases pc <;> rfl

theorem toNat_eq_zero_iff (b : Bool) : b.toNat = 0 ↔ b = false := by
  cases b <;> simp

theorem toNat_le_one (b : Bool) : b.toNat ≤ 1 := by
  cases b <;> simp

theorem altMuts_succ (n : Nat) :
    altMuts (n + 1) = altMuts n ++ [if n % 2 = 0 then Role.producer else Role.consumer] := by
  simp [altMuts, List.range_succ]

theorem altOut_succ (n : Nat) :
    altOut (n + 1) =
      altOut n ++ [if n % 2 = 0 then (Role.producer, 1) else (Role.consumer, 0)] := by
  simp [altOut, List.range_succ]

theorem PC.atPrint_le_inCS (pc : PC) : pc.atPrint.toNat ≤ pc.inCS.toNat := by
  cases pc <;> decide

theorem altInv_init (NBUFF : Nat) : AltInv (init NBUFF) := by
  constructor <;> simp [ProducerConsumer.init, altMuts, altOut]

/-- At capacity `1` every step of `produce` preserves the alternation invariant. -/
theorem altInv_produce {np nc : Int} {s s' : State} (hi : Inv 1 np nc s) (ha : AltInv s)
    (hs : produce np s = some s') : AltInv s' := by
  obtain ⟨h1, h2, h3, -, -, -, -, -, -, -, -, -, -, -, h15⟩ := hi
  obtain ⟨a1, a2, a3⟩ := ha
  obtain ⟨count, mutex, empty, full, ⟨ppc, pi⟩, ⟨cpc, ci⟩, out, muts⟩ := s
  dsimp only at h1 h2 h3 h15 a1 a2 a3
  have hle := PC.atPrint_le_inCS cpc
  cases ppc <;> simp only [ProducerConsumer.produce] at hs <;>
    (try split at hs) <;> simp only [Option.some.injEq, reduceCtorEq] at hs <;>
    subst hs
  case update =>
    simp only [PC.beforeUpdate.eq_2, PC.afterUpdate.eq_5, reduceCtorEq, imp_self,
      Bool.toNat_true, Bool.toNat_false, Nat.cast_zero, Nat.cast_one] at h2 h3
    have hc : count = 0 := by omega
    subst hc
    have hpar : muts.length % 2 = 0 := by omega
    refine ⟨?_, a2, ?_⟩
    · show muts ++ [Role.producer] = altMuts (muts ++ [Role.producer]).length
      rw [List.length_append, List.length_singleton, altMuts_succ, if_pos hpar, ← a1]
    · show (0 : Int) + 1 = (((muts ++ [Role.producer]).length % 2 : Nat) : Int)
      rw [List.length_append, List.length_singleton]
      omega
  case print =>
    simp only [PC.inCS.eq_2, PC.beforeUpdate.eq_3, PC.afterUpdate.eq_1, PC.atPrint.eq_1,
      reduceCtorEq, imp_self, Bool.toNat_true, Bool.toNat_false, Nat.cast_zero,
      Nat.cast_one] at h1 h2 h3 h15
    have hc : count = 1 := by omega
    subst hc
    have hpar : out.length % 2 = 0 := by omega
    refine ⟨a1, ?_, a3⟩
    show out ++ [(Role.producer, (1 : Int))] = altOut (out ++ [(Role.producer, (1 : Int))]).length
    rw [List.length_append, List.length_singleton, altOut_succ, if_pos hpar, ← a2]
  all_goals exact ⟨a1, a2, a3⟩

/-- At capacity `1` every step of `consume` preserves the alternation invariant. -/
theorem altInv_consume {np nc : Int} {s s' : State} (hi : Inv 1 np nc s) (ha : AltInv s)
    (hs : consume nc s = some s') : AltInv s' := by
  obtain ⟨h1, h2, h3, -, -, -, -, -, -, -, -, -, -, -, h15⟩ := hi
  obtain ⟨a1, a2, a3⟩ := ha
  obtain ⟨count, mutex, empty, full, ⟨ppc, pi⟩, ⟨cpc, ci⟩, out, muts⟩ := s
  dsimp only at h1 h2 h3 h15 a1 a2 a3
  have hle := PC.atPrint_le_inCS ppc
  cases cpc <;> simp only [ProducerConsumer.consume] at hs <;>
    (try split at hs) <;> simp only [Option.some.injEq, reduceCtorEq] at hs <;>
    subst hs
  case update =>
    simp only [PC.beforeUpdate.eq_2, PC.afterUpdate.eq_5, reduceCtorEq, imp_self,
      Bool.toNat_true, Bool.toNat_false, Nat.cast_zero, Nat.cast_one] at h2 h3
    have hc : count = 1 := by omega
    subst hc
    have hpar : ¬ muts.length % 2 = 0 := by omega
    refine ⟨?_, a2, ?_⟩
    · show muts ++ [Role.consumer] = altMuts (muts ++ [Role.consumer]).length
      rw [List.length_append, List.length_singleton, altMuts_succ, if_neg hpar, ← a1]
    · show (1 : Int) - 1 = (((muts ++ [Role.consumer]).length % 2 : Nat) : Int)
      rw [List.length_append, List.length_singleton]
      omega
  case print =>
    simp only [PC.inCS.eq_2, PC.beforeUpdate.eq_3, PC.afterUpdate.eq_1, PC.atPrint.eq_1,
      reduceCtorEq, imp_self, Bool.toNat_true, Bool.toNat_false, Nat.cast_zero,
      Nat.cast_one] at h1 h2 h3 h15
    have hc : count = 0 := by omega
    subst hc
    have hpar : ¬ out.length % 2 = 0 := by omega
    refine ⟨a1, ?_, a3⟩
    show out ++ [(Role.consumer, (0 : Int))] = altOut (out ++ [(Role.consumer, (0 : Int))]).length
    rw [List.length_append, List.length_singleton, altOut_succ, if_neg hpar, ← a2]
  all_goals exact ⟨a1, a2, a3⟩

/-- At capacity `1` every execution preserves the alternation invariant. -/
theorem altInv_run {np nc : Int} :
    ∀ (sched : List Role) {s s' : State},
      Inv 1 np nc s → AltInv s → run np nc sched s = some s' → AltInv s'
  | [], s, s', _, ha, hr => by
      simp only [ProducerConsumer.run, Option.some.injEq] at hr
      exact hr ▸ ha
  | t :: ts, s, s', hi, ha, hr => by
      simp only [ProducerConsumer.run] at hr
      cases hst : step np nc t s with
      | none => simp [hst] at hr
      | some s1 =>
          rw [hst, Option.some_bind] at hr
          have ha1 : AltInv s1 := by
            cases t
            · exact altInv_produce hi ha hst
            · exact altInv_consume hi ha hst
          exact altInv_run ts (inv_step hi hst) ha1 hr

/-- No two consecutive entries of the alternating sequence are equal. -/
theorem altMuts_chain (n : Nat) : List.Chain' (fun a b : Role => a ≠ b) (altMuts n) := by
  unfold altMuts
  rw [List.chain'_map]
  cases n with
  | zero => simp
  | succ n =>
      rw [List.chain'_range_succ]
      intro m _
      by_cases hm : m % 2 = 0
      · have : ¬ (m + 1) % 2 = 0 := by omega
        simp [hm, this]
      · have : (m + 1) % 2 = 0 := by omega
        simp [hm, this]

theorem length_eq_count_add (l : List Role) :
    l.length = l.count Role.producer + l.count Role.consumer := by
  induction l with
  | nil => rfl
  | cons a l ih =>
      cases a <;> simp [List.count_cons, ih] <;> omega

theorem progress_produce {np : Int} {s s' : State} (hs : produce np s = some s') :
    s'.progress = s.progress + 1 := by
  obtain ⟨count, mutex, empty, full, ⟨ppc, pi⟩, ⟨cpc, ci⟩, out, muts⟩ := s
  cases ppc <;> simp only [ProducerConsumer.produce] at hs <;>
    (try split at hs) <;> simp only [Option.some.injEq, reduceCtorEq] at hs <;>
    subst hs <;> simp only [State.progress, Task.progress] <;> omega

theorem progress_consume {nc : Int} {s s' : State} (hs : consume nc s = some s') :
    s'.progress = s.progress + 1 := by
  obtain ⟨count, mutex, empty, full, ⟨ppc, pi⟩, ⟨cpc, ci⟩, out, muts⟩ := s
  cases cpc <;> simp only [ProducerConsumer.consume] at hs <;>
    (try split at hs) <;> simp only [Option.some.injEq, reduceCtorEq] at hs <;>
    subst hs <;> simp only [State.progress, Task.progress] <;> omega

/-- Every step advances the program counter of one thread by one position. -/
theorem progress_step {np nc : Int} {t : Role} {s s' : State}
    (hs : step np nc t s = some s') : s'.progress = s.progress + 1 := by
  cases t
  · exact progress_produce hs
  · exact progress_consume hs

/-- An execution of `k` steps advances the total progress by `k`. -/
theorem progress_run {np nc : Int} :
    ∀ (sched : List Role) {s s' : State},
      run np nc sched s = some s' → s'.progress = s.progress + sched.length
  | [], s, s', hr => by
      simp only [ProducerConsumer.run, Option.some.injEq] at hr
      subst hr
      simp
  | t :: ts, s, s', hr => by
      simp only [ProducerConsumer.run] at hr
      cases hst : step np nc t s with
      | none => simp [hst] at hr
      | some s1 =>
          rw [hst, Option.some_bind] at hr
          have h1 := progress_step hst
          have h2 := progress_run ts hr
          simp only [List.length_cons, Nat.cast_add, Nat.cast_one]
          omega

/-- Under the invariant the total progress is bounded by `stepBound`. -/
theorem progress_le_bound {NBUFF : Nat} {np nc : Int} {s : State} (hi : Inv NBUFF np nc s) :
    s.progress ≤ stepBound np nc := by
  obtain ⟨-, -, -, -, h5, h6, h7, h8, h9, h10, h11, h12, -, -, -⟩ := hi
  obtain ⟨count, mutex, empty, full, ⟨ppc, pi⟩, ⟨cpc, ci⟩, out, muts⟩ := s
  dsimp only at h5 h6 h7 h8 h9 h10 h11 h12
  have hp : (Task.mk ppc pi).progress ≤ 9 * max np 0 + 1 := by
    cases ppc <;>
      simp only [PC.inBody.eq_1, PC.inBody.eq_2, PC.inBody.eq_3, reduceCtorEq, imp_self,
        false_implies, true_implies, forall_const, Bool.false_eq_true] at h6 <;>
      simp only [Task.progress] <;> omega
  have hc : (Task.mk cpc ci).progress ≤ 9 * max nc 0 + 1 := by
    cases cpc <;>
      simp only [PC.inBody.eq_1, PC.inBody.eq_2, PC.inBody.eq_3, reduceCtorEq, imp_self,
        false_implies, true_implies, forall_const, Bool.false_eq_true] at h10 <;>
      simp only [Task.progress] <;> omega
  simp only [State.progress, stepBound]
  omega

theorem progress_init (NBUFF : Nat) : (init NBUFF).progress = 0 := by
  simp [ProducerConsumer.init, State.progress, Task.progress]

/-- A state with no enabled step: both threads have returned, or one has
returned and the other is blocked on its counting semaphore. -/
theorem stuck_cases {NBUFF : Nat} {np nc : Int} {s : State} (hi : Inv NBUFF np nc s)
    (hB : 1 ≤ NBUFF) (hstuck : ∀ t, step np nc t s = none) :
    (s.prod.pc = .returned ∧ s.cons.pc = .returned) ∨
      (s.prod.pc = .returned ∧ s.cons.pc = .waitCount ∧ s.full = 0) ∨
      (s.prod.pc = .waitCount ∧ s.cons.pc = .returned ∧ s.empty = 0) := by
  obtain ⟨h1, h2, h3, -, -, -, -, -, -, -, -, -, -, -, -⟩ := hi
  have hp := hstuck .producer
  have hc := hstuck .consumer
  obtain ⟨count, mutex, empty, full, ⟨ppc, pi⟩, ⟨cpc, ci⟩, out, muts⟩ := s
  dsimp only at h1 h2 h3
  simp only [ProducerConsumer.step] at hp hc
  cases ppc <;> simp only [ProducerConsumer.produce] at hp <;>
    (try split at hp) <;> (try simp only [reduceCtorEq] at hp) <;>
    cases cpc <;> simp only [ProducerConsumer.consume] at hc <;>
    (try split at hc) <;> (try simp only [reduceCtorEq] at hc) <;>
    simp only [PC.inCS.eq_1, PC.inCS.eq_2, PC.inCS.eq_3, PC.inCS.eq_4, PC.inCS.eq_5,
      PC.beforeUpdate.eq_1, PC.beforeUpdate.eq_2, PC.beforeUpdate.eq_3,
      PC.afterUpdate.eq_1, PC.afterUpdate.eq_2, PC.afterUpdate.eq_3, PC.afterUpdate.eq_4,
      PC.afterUpdate.eq_5, Bool.toNat_true, Bool.toNat_false, Nat.cast_zero, Nat.cast_one,
      reduceCtorEq, imp_self] at h1 h2 h3 <;>
    simp only [reduceCtorEq, false_and, and_false, true_and, and_true, false_or, or_false,
      true_or, or_true] <;>
    omega

/-- Every execution can be extended to a maximal one: from any state that
satisfies the invariant some schedule leads to a state with no enabled
step. -/
theorem exists_maximal_extension {NBUFF : Nat} {np nc : Int} :
    ∀ (n : Nat) (s : State), Inv NBUFF np nc s → stepBound np nc - s.progress ≤ n →
      ∃ (sched' : List Role) (s' : State),
        run np nc sched' s = some s' ∧ ∀ t, step np nc t s' = none := by
  intro n
  induction n with
  | zero =>
      intro s hi hn
      by_cases hst : ∀ t, step np nc t s = none
      · exact ⟨[], s, rfl, hst⟩
      · push_neg at hst
        obtain ⟨t, ht⟩ := hst
        obtain ⟨s1, hs1⟩ := Option.ne_none_iff_exists'.mp ht
        have hb := progress_le_bound (inv_step hi hs1)
        have hp := progress_step hs1
        omega
  | succ n ih =>
      intro s hi hn
      by_cases hst : ∀ t, step np nc t s = none
      · exact ⟨[], s, rfl, hst⟩
      · push_neg at hst
        obtain ⟨t, ht⟩ := hst
        obtain ⟨s1, hs1⟩ := Option.ne_none_iff_exists'.mp ht
        have hp := progress_step hs1
        obtain ⟨sched', s', hr, hmax⟩ := ih s1 (inv_step hi hs1) (by omega)
        refine ⟨t :: sched', s', ?_, hmax⟩
        simp only [ProducerConsumer.run, hs1, Option.some_bind, hr]

/-- With equal loop bounds a state with no enabled step has both threads
returned. -/
theorem finished_of_stuck {NBUFF : Nat} {N : Int} {s : State} (hi : Inv NBUFF N N s)
    (hB : 1 ≤ NBUFF) (hstuck : ∀ t, step N N t s = none) : s.finished = true := by
  have h2 := hi.empty_eq
  have h3 := hi.full_eq
  have h4 := hi.count_eq
  have h6 := hi.prod_body
  have h7 := hi.prod_ret
  have h8 := hi.prod_le
  have h10 := hi.cons_body
  have h11 := hi.cons_ret
  have h12 := hi.cons_le
  rcases stuck_cases hi hB hstuck with ⟨hp, hc⟩ | ⟨hp, hc, hf⟩ | ⟨hp, hc, he⟩
  · simp [State.finished, hp, hc]
  · exfalso
    have h7 := h7 hp
    rw [hp, hc] at h2 h3 h4
    rw [hc] at h10
    simp only [PC.beforeUpdate.eq_3, PC.afterUpdate.eq_5, PC.iterDone.eq_6, PC.inBody.eq_3,
      reduceCtorEq, imp_self, Bool.toNat_false, Nat.cast_zero, forall_const] at h2 h3 h4 h10
    omega
  · exfalso
    have h11 := h11 hc
    rw [hp, hc] at h2 h3 h4
    rw [hp] at h6
    simp only [PC.beforeUpdate.eq_3, PC.afterUpdate.eq_5, PC.iterDone.eq_6, PC.inBody.eq_3,
      reduceCtorEq, imp_self, Bool.toNat_false, Nat.cast_zero, forall_const] at h2 h3 h4 h6
    omega

/-- With equal non-negative loop bounds, once both threads have returned each
has completed all `N` iterations of its loop. -/
theorem iterations_of_finished {NBUFF : Nat} {N : Int} {s : State} (hi : Inv NBUFF N N s)
    (hN : 0 ≤ N) (hf : s.finished = true) : s.prod.i = N ∧ s.cons.i = N := by
  simp only [State.finished, Bool.and_eq_true, beq_iff_eq] at hf
  obtain ⟨hp, hc⟩ := hf
  have h7 := hi.prod_ret hp
  have h8 := hi.prod_le
  have h11 := hi.cons_ret hc
  have h12 := hi.cons_le
  constructor <;> omega

/-- Order of the semaphore operations in `produce`. -/
theorem produce_ordering (n : Int) (a b : State) (hs : produce n a = some b) :
    (b.empty < a.empty → a.prod.pc = .waitCount ∧ b.prod.pc = .waitMutex ∧ b.mutex = a.mutex) ∧
      (b.mutex < a.mutex → a.prod.pc = .waitMutex) ∧
      (a.mutex < b.mutex → a.prod.pc = .postMutex ∧ b.prod.pc = .postCount ∧ b.full = a.full) ∧
      (a.full < b.full → a.prod.pc = .postCount) := by
  obtain ⟨count, mutex, empty, full, ⟨ppc, pi⟩, ⟨cpc, ci⟩, out, muts⟩ := a
  cases ppc <;> simp only [ProducerConsumer.produce] at hs <;>
    (try split at hs) <;> simp only [Option.some.injEq, reduceCtorEq] at hs <;>
    subst hs <;> simp

/-- Order of the semaphore operations in `consume`. -/
theorem consume_ordering (n : Int) (a b : State) (hs : consume n a = some b) :
    (b.full < a.full → a.cons.pc = .waitCount ∧ b.cons.pc = .waitMutex ∧ b.mutex = a.mutex) ∧
      (b.mutex < a.mutex → a.cons.pc = .waitMutex) ∧
      (a.mutex < b.mutex → a.cons.pc = .postMutex ∧ b.cons.pc = .postCount ∧ b.empty = a.empty) ∧
      (a.empty < b.empty → a.cons.pc = .postCount) := by
  obtain ⟨count, mutex, empty, full, ⟨ppc, pi⟩, ⟨cpc, ci⟩, out, muts⟩ := a
  cases cpc <;> simp only [ProducerConsumer.consume] at hs <;>
    (try split at hs) <;> simp only [Option.some.injEq, reduceCtorEq] at hs <;>
    subst hs <;> simp

/-- C1 (occupancy bound): in every state reached by any interleaving of
`produce` and `consume` from the initial state, for every capacity and every
loop bound, `0 ≤ shared.count ≤ NBUFF`. -/
theorem occupancy_bound (NBUFF : Nat) (nitems : Int) (sched : List Role) (s : State)
    (h : run nitems nitems sched (init NBUFF) = some s) :
    0 ≤ s.count ∧ s.count ≤ NBUFF := by
  have hi := inv_of_run h
  have h2 := hi.empty_eq
  have h3 := hi.full_eq
  constructor <;> omega

/-- Instance of C1 at the source's values `NBUFF = 10`, `nitems = 2`, in the state
reached after the producer has run both of its iterations (`shared.count = 2`). -/
theorem occupancy_bound_witness :
    run 2 2 schedTwoProduced (init 10) = some stateTwoProduced ∧
      0 ≤ stateTwoProduced.count ∧ stateTwoProduced.count ≤ (10 : Nat) :=
  ⟨by decide, occupancy_bound 10 2 schedTwoProduced stateTwoProduced (by decide)⟩

/-- C2 (mutual exclusion): in every reachable state at most one of the two
threads is between its `sem_wait(shared.mutex)` and its
`sem_post(shared.mutex)`; the value of `mutex` plus the number of threads
inside that section is `1`, and the value of `mutex` is `0` or `1`. -/
theorem mutual_exclusion (NBUFF : Nat) (nitems : Int) (sched : List Role) (s : State)
    (h : run nitems nitems sched (init NBUFF) = some s) :
    ¬ (s.prod.pc.inCS = true ∧ s.cons.pc.inCS = true) ∧
      s.mutex + s.prod.pc.inCS.toNat + s.cons.pc.inCS.toNat = 1 ∧
      (s.mutex = 0 ∨ s.mutex = 1) := by
  have h1 := (inv_of_run h).mutex_eq
  refine ⟨?_, h1, by omega⟩
  rintro ⟨hp, hc⟩
  rw [hp, hc] at h1
  simp at h1

/-- Instance of C2 at `NBUFF = 10`, `nitems = 2`, in a state in which the producer
is inside the guarded section. -/
theorem mutual_exclusion_witness :
    run 2 2 schedProducerInside (init 10) = some stateProducerInside ∧
      (¬ (stateProducerInside.prod.pc.inCS = true ∧ stateProducerInside.cons.pc.inCS = true) ∧
        stateProducerInside.mutex + stateProducerInside.prod.pc.inCS.toNat
          + stateProducerInside.cons.pc.inCS.toNat = 1 ∧
        (stateProducerInside.mutex = 0 ∨ stateProducerInside.mutex = 1)) :=
  ⟨by decide, mutual_exclusion 10 2 schedProducerInside stateProducerInside (by decide)⟩

/-- C3 (conservation and final state): for every `nitems = N ≥ 0` and every
interleaving after which both `produce` and `consume` have returned, exactly
`N` increments and exactly `N` decrements of `shared.count` were performed,
the final `shared.count` is `0` and the semaphores are back at their initial
values (`empty = NBUFF`, `full = 0`, `mutex = 1`). -/
theorem conservation_final_state (NBUFF : Nat) (N : Int) (sched : List Role) (s : State)
    (hN : 0 ≤ N) (h : run N N sched (init NBUFF) = some s) (hf : s.finished = true) :
    (s.muts.count Role.producer : Int) = N ∧ (s.muts.count Role.consumer : Int) = N ∧
      s.count = 0 ∧ s.empty = NBUFF ∧ s.full = 0 ∧ s.mutex = 1 := by
  obtain ⟨h1, h2, h3, h4, h5, h6, h7, h8, h9, h10, h11, h12, h13, h14, h15⟩ := inv_of_run h
  simp only [State.finished, Bool.and_eq_true, beq_iff_eq] at hf
  obtain ⟨hp, hc⟩ := hf
  have h7 := h7 hp
  have h11 := h11 hc
  rw [hp, hc] at h1 h2 h3 h4
  rw [hp] at h13
  rw [hc] at h14
  simp only [PC.inCS.eq_5, PC.beforeUpdate.eq_3, PC.afterUpdate.eq_5, PC.iterDone.eq_6,
    reduceCtorEq, imp_self, Bool.toNat_false, Nat.cast_zero] at h1 h2 h3 h4 h13 h14
  omega

/-- Instance of C3 at `NBUFF = 10`, `N = 2`: a complete interleaved run, after
which two increments and two decrements were performed and the occupancy is `0`. -/
theorem conservation_final_state_witness :
    (0 : Int) ≤ 2 ∧ run 2 2 schedComplete2 (init 10) = some stateComplete2 ∧
      stateComplete2.finished = true ∧
      ((stateComplete2.muts.count Role.producer : Int) = 2 ∧
        (stateComplete2.muts.count Role.consumer : Int) = 2 ∧
        stateComplete2.count = 0 ∧ stateComplete2.empty = 10 ∧ stateComplete2.full = 0 ∧
        stateComplete2.mutex = 1) :=
  ⟨by decide, by decide, by decide,
    conservation_final_state 10 2 schedComplete2 stateComplete2 (by decide) (by decide)
      (by decide)⟩

/-- C4, as stated, fails: with `NBUFF = 10` and `nitems = 2`, after the
producer has executed `sem_wait(shared.empty)` the state has `empty = 9` and
`full = 0`, so it is not the case that in every reachable state
`empty + full = NBUFF` and `full = count = NBUFF - empty`. -/
theorem semaphore_sum_any_instant_fails :
    ¬ ∀ (sched : List Role) (s : State), run 2 2 sched (init 10) = some s →
        s.empty + s.full = 10 ∧ (s.full : Int) = s.count ∧ s.count = 10 - (s.empty : Int) := by
  intro hall
  have h := hall [.producer, .producer]
    { count := 0, mutex := 1, empty := 9, full := 0, prod := ⟨.waitMutex, 0⟩,
      cons := ⟨.forTest, 0⟩, out := [], muts := [] } (by decide)
  exact absurd h.1 (by decide)

/-- C4 (amended): in every reachable state, `empty + full = NBUFF` holds
exactly when no thread is in flight; `full = shared.count` holds exactly when
the producer is not between its `shared.count++` and its
`sem_post(shared.full)` and the consumer is not between its
`sem_wait(shared.full)` and its `shared.count--`; and
`shared.count = NBUFF - empty` holds exactly when the producer is not between
its `sem_wait(shared.empty)` and its `shared.count++` and the consumer is not
between its `shared.count--` and its `sem_post(shared.empty)`. -/
theorem semaphore_sum_iff_not_in_flight (NBUFF : Nat) (nitems : Int) (sched : List Role)
    (s : State) (h : run nitems nitems sched (init NBUFF) = some s) :
    (s.empty + s.full = NBUFF ↔ (s.prod.pc.inFlight = false ∧ s.cons.pc.inFlight = false)) ∧
      ((s.full : Int) = s.count ↔
        (s.prod.pc.afterUpdate = false ∧ s.cons.pc.beforeUpdate = false)) ∧
      (s.count = NBUFF - (s.empty : Int) ↔
        (s.prod.pc.beforeUpdate = false ∧ s.cons.pc.afterUpdate = false)) := by
  have hi := inv_of_run h
  have h2 := hi.empty_eq
  have h3 := hi.full_eq
  simp only [← toNat_eq_zero_iff, PC.inFlight_toNat]
  refine ⟨?_, ?_, ?_⟩ <;> constructor <;> intro hh <;> omega

/-- Instance of the amended C4 at `NBUFF = 10`, `nitems = 2`, in a state with the
producer in flight. -/
theorem semaphore_sum_iff_not_in_flight_witness :
    run 2 2 schedProducerInside (init 10) = some stateProducerInside ∧
      ((stateProducerInside.empty + stateProducerInside.full = 10 ↔
          (stateProducerInside.prod.pc.inFlight = false ∧
            stateProducerInside.cons.pc.inFlight = false)) ∧
        ((stateProducerInside.full : Int) = stateProducerInside.count ↔
          (stateProducerInside.prod.pc.afterUpdate = false ∧
            stateProducerInside.cons.pc.beforeUpdate = false)) ∧
        (stateProducerInside.count = (10 : Nat) - (stateProducerInside.empty : Int) ↔
          (stateProducerInside.prod.pc.beforeUpdate = false ∧
            stateProducerInside.cons.pc.afterUpdate = false))) :=
  ⟨by decide,
    semaphore_sum_iff_not_in_flight 10 2 schedProducerInside stateProducerInside (by decide)⟩

/-- C5 (quiescent-point relation): in every reachable state in which neither
thread is in flight (each is at the loop test, before the `sem_wait` on its
counting semaphore, at the `i++`, or has returned), `empty + full = NBUFF` and
`full = shared.count = NBUFF - empty`. -/
theorem quiescent_relation (NBUFF : Nat) (nitems : Int) (sched : List Role) (s : State)
    (h : run nitems nitems sched (init NBUFF) = some s)
    (hp : s.prod.pc.inFlight = false) (hc : s.cons.pc.inFlight = false) :
    s.empty + s.full = NBUFF ∧ (s.full : Int) = s.count ∧
      s.count = NBUFF - (s.empty : Int) := by
  have hi := inv_of_run h
  have h2 := hi.empty_eq
  have h3 := hi.full_eq
  rw [← toNat_eq_zero_iff, PC.inFlight_toNat] at hp hc
  refine ⟨?_, ?_, ?_⟩ <;> omega

/-- Instance of C5 at `NBUFF = 10`, `nitems = 2`, in the quiescent state reached
after two whole iterations of the producer. -/
theorem quiescent_relation_witness :
    run 2 2 schedTwoProduced (init 10) = some stateTwoProduced ∧
      stateTwoProduced.prod.pc.inFlight = false ∧ stateTwoProduced.cons.pc.inFlight = false ∧
      (stateTwoProduced.empty + stateTwoProduced.full = 10 ∧
        (stateTwoProduced.full : Int) = stateTwoProduced.count ∧
        stateTwoProduced.count = (10 : Nat) - (stateTwoProduced.empty : Int)) :=
  ⟨by decide, by decide, by decide,
    quiescent_relation 10 2 schedTwoProduced stateTwoProduced (by decide) (by decide)
      (by decide)⟩

/-- C6, as stated, fails: with `NBUFF = 10` and `nitems = 2`, once the
producer has executed `shared.count++` and not yet `sem_post(shared.full)`,
the consumer at `sem_wait(shared.full)` is blocked (`full = 0`) although the
buffer is not empty (`shared.count = 1`). -/
theorem backpressure_iff_fails :
    ¬ ∀ (sched : List Role) (s : State), run 2 2 sched (init 10) = some s →
        (s.prod.pc = .waitCount → (s.empty = 0 ↔ s.count = 10)) ∧
        (s.cons.pc = .waitCount → (s.full = 0 ↔ s.count = 0)) := by
  intro hall
  have h := (hall schedProducerInside stateProducerInside (by decide)).2 (by decide)
  exact absurd (h.1 (by decide)) (by decide)

/-- C6 (amended): in every reachable state in which the producer is at its
`sem_wait(shared.empty)`, a full buffer (`shared.count = NBUFF`) blocks it
(`empty = 0`), and it is blocked exactly when `shared.count` plus the number
of consumers between `shared.count--` and `sem_post(shared.empty)` equals
`NBUFF`; in every reachable state in which the consumer is at its
`sem_wait(shared.full)`, an empty buffer (`shared.count = 0`) blocks it
(`full = 0`), and it is blocked exactly when `shared.count` equals the number
of producers between `shared.count++` and `sem_post(shared.full)`. -/
theorem backpressure_blocking (NBUFF : Nat) (nitems : Int) (sched : List Role) (s : State)
    (h : run nitems nitems sched (init NBUFF) = some s) :
    (s.prod.pc = .waitCount →
        (s.count = NBUFF → s.empty = 0) ∧
        (s.empty = 0 ↔ s.count + s.cons.pc.afterUpdate.toNat = NBUFF)) ∧
      (s.cons.pc = .waitCount →
        (s.count = 0 → s.full = 0) ∧
        (s.full = 0 ↔ s.count = s.prod.pc.afterUpdate.toNat)) := by
  have hi := inv_of_run h
  have h2 := hi.empty_eq
  have h3 := hi.full_eq
  constructor
  · intro hp
    rw [hp] at h2
    simp only [PC.beforeUpdate.eq_3, reduceCtorEq, imp_self, Bool.toNat_false,
      Nat.cast_zero] at h2
    refine ⟨by omega, ?_⟩
    constructor <;> intro hh <;> omega
  · intro hc
    rw [hc] at h3
    simp only [PC.beforeUpdate.eq_3, reduceCtorEq, imp_self, Bool.toNat_false,
      Nat.cast_zero] at h3
    refine ⟨by omega, ?_⟩
    constructor <;> intro hh <;> omega

/-- Instance of the amended C6 at `NBUFF = 10`, `nitems = 2`, in a state in which
the consumer is at `sem_wait(shared.full)` while the producer is between its
`shared.count++` and its `sem_post(shared.full)`. -/
theorem backpressure_blocking_witness :
    run 2 2 schedProducerInside (init 10) = some stateProducerInside ∧
      ((stateProducerInside.prod.pc = .waitCount →
          (stateProducerInside.count = (10 : Nat) → stateProducerInside.empty = 0) ∧
          (stateProducerInside.empty = 0 ↔
            stateProducerInside.count + stateProducerInside.cons.pc.afterUpdate.toNat
              = (10 : Nat))) ∧
        (stateProducerInside.cons.pc = .waitCount →
          (stateProducerInside.count = 0 → stateProducerInside.full = 0) ∧
          (stateProducerInside.full = 0 ↔
            stateProducerInside.count = stateProducerInside.prod.pc.afterUpdate.toNat))) :=
  ⟨by decide, backpressure_blocking 10 2 schedProducerInside stateProducerInside (by decide)⟩

/-- C7 (alternation at capacity 1): with `NBUFF = 1` and both loops bounded
by the same `N`, in every reachable state the sequence of mutations of
`shared.count` performed so far is a prefix of produce, consume, produce,
consume, ... (so no two consecutive mutations are by the same thread: the
producer never performs two `shared.count++` without a `shared.count--` in
between), `shared.count` never exceeds `1`, and the printed occupancies are a
prefix of `1, 0, 1, 0, ...`; when both threads have returned (`N ≥ 0`) both
sequences have length `2 * N`. -/
theorem alternation_capacity_one (N : Int) (sched : List Role) (s : State)
    (h : run N N sched (init 1) = some s) :
    s.muts = altMuts s.muts.length ∧
      List.Chain' (fun a b : Role => a ≠ b) s.muts ∧
      s.count ≤ 1 ∧
      s.out = altOut s.out.length ∧
      (0 ≤ N → s.finished = true →
        (s.muts.length : Int) = 2 * N ∧ (s.out.length : Int) = 2 * N) := by
  have hi := inv_of_run h
  have ha := altInv_run sched (inv_init 1 N N) (altInv_init 1) h
  have h2 := hi.empty_eq
  have h3 := hi.full_eq
  refine ⟨ha.muts_alt, ?_, by omega, ha.out_alt, ?_⟩
  · rw [ha.muts_alt]
    exact altMuts_chain _
  · intro hN hf
    simp only [State.finished, Bool.and_eq_true, beq_iff_eq] at hf
    obtain ⟨hp, hc⟩ := hf
    have h7 := hi.prod_ret hp
    have h8 := hi.prod_le
    have h11 := hi.cons_ret hc
    have h12 := hi.cons_le
    have h13 := hi.muts_prod
    have h14 := hi.muts_cons
    have h15 := hi.out_len
    rw [hp] at h13 h15
    rw [hc] at h14 h15
    simp only [PC.iterDone.eq_6, PC.atPrint.eq_2, reduceCtorEq, imp_self, Bool.toNat_false,
      Nat.cast_zero] at h13 h14 h15
    have hl := length_eq_count_add s.muts
    omega

/-- Instances of C7 at `NBUFF = 1` with `N = 5` and with `N = 3`: complete runs
whose mutation history and output alternate. -/
theorem alternation_capacity_one_witness :
    (run 5 5 (schedAlternate 5) (init 1) = some stateAlternate5 ∧
      (stateAlternate5.muts = altMuts stateAlternate5.muts.length ∧
        List.Chain' (fun a b : Role => a ≠ b) stateAlternate5.muts ∧
        stateAlternate5.count ≤ 1 ∧
        stateAlternate5.out = altOut stateAlternate5.out.length ∧
        ((0 : Int) ≤ 5 → stateAlternate5.finished = true →
          (stateAlternate5.muts.length : Int) = 2 * 5 ∧
          (stateAlternate5.out.length : Int) = 2 * 5))) ∧
    (run 3 3 (schedAlternate 3) (init 1) = some stateAlternate3 ∧
      (stateAlternate3.muts = altMuts stateAlternate3.muts.length ∧
        List.Chain' (fun a b : Role => a ≠ b) stateAlternate3.muts ∧
        stateAlternate3.count ≤ 1 ∧
        stateAlternate3.out = altOut stateAlternate3.out.length ∧
        ((0 : Int) ≤ 3 → stateAlternate3.finished = true →
          (stateAlternate3.muts.length : Int) = 2 * 3 ∧
          (stateAlternate3.out.length : Int) = 2 * 3))) :=
  ⟨⟨by decide, alternation_capacity_one 5 (schedAlternate 5) stateAlternate5 (by decide)⟩,
    ⟨by decide, alternation_capacity_one 3 (schedAlternate 3) stateAlternate3 (by decide)⟩⟩

/-- C8 (deadlock freedom and completion with equal counts): every step of a
thread that takes its counting semaphore leads to the `sem_wait` on the mutex
without touching the mutex, the mutex is only taken from that point, and every
step that posts the mutex leads to the `sem_post` on the other counting
semaphore, which is only posted from that point.  For every `N` and
`NBUFF ≥ 1`, in every reachable state in which some thread has not returned
some thread has an enabled step; a state with no enabled step has both
threads returned, and for `N ≥ 0` each of them has then completed all `N`
iterations of its loop (its index `i` equals `N`); whenever both threads have
returned and `N ≥ 0` both indices equal `N`; the number of steps executed
equals the progress of the two program counters and is at most
`18 * max N 0 + 2`; and the execution can be extended to one in which both
`produce` and `consume` have returned after all `N` iterations. -/
theorem deadlock_freedom_and_completion (NBUFF : Nat) (N : Int) (hB : 1 ≤ NBUFF)
    (sched : List Role) (s : State) (h : run N N sched (init NBUFF) = some s) :
    (∀ (n : Int) (a b : State), produce n a = some b →
        (b.empty < a.empty →
          a.prod.pc = .waitCount ∧ b.prod.pc = .waitMutex ∧ b.mutex = a.mutex) ∧
        (b.mutex < a.mutex → a.prod.pc = .waitMutex) ∧
        (a.mutex < b.mutex →
          a.prod.pc = .postMutex ∧ b.prod.pc = .postCount ∧ b.full = a.full) ∧
        (a.full < b.full → a.prod.pc = .postCount)) ∧
      (∀ (n : Int) (a b : State), consume n a = some b →
        (b.full < a.full →
          a.cons.pc = .waitCount ∧ b.cons.pc = .waitMutex ∧ b.mutex = a.mutex) ∧
        (b.mutex < a.mutex → a.cons.pc = .waitMutex) ∧
        (a.mutex < b.mutex →
          a.cons.pc = .postMutex ∧ b.cons.pc = .postCount ∧ b.empty = a.empty) ∧
        (a.empty < b.empty → a.cons.pc = .postCount)) ∧
      (s.finished = false → ∃ t, (step N N t s).isSome = true) ∧
      ((∀ t, step N N t s = none) →
        s.finished = true ∧ (0 ≤ N → s.prod.i = N ∧ s.cons.i = N)) ∧
      (0 ≤ N → s.finished = true → s.prod.i = N ∧ s.cons.i = N) ∧
      (sched.length : Int) = s.progress ∧
      (sched.length : Int) ≤ 18 * max N 0 + 2 ∧
      (∃ (sched' : List Role) (s' : State),
        run N N sched' s = some s' ∧ s'.finished = true ∧
          (0 ≤ N → s'.prod.i = N ∧ s'.cons.i = N)) := by
  have hi := inv_of_run h
  have hlen : (sched.length : Int) = s.progress := by
    have := progress_run sched h
    rw [progress_init] at this
    omega
  have hb := progress_le_bound hi
  refine ⟨produce_ordering, consume_ordering, ?_,
    fun hst => ⟨finished_of_stuck hi hB hst,
      fun hN => iterations_of_finished hi hN (finished_of_stuck hi hB hst)⟩,
    fun hN hf => iterations_of_finished hi hN hf, hlen, ?_, ?_⟩
  · intro hnf
    by_contra hno
    push_neg at hno
    have hst : ∀ t, step N N t s = none := by
      intro t
      have := hno t
      cases hx : step N N t s with
      | none => rfl
      | some x => simp [hx] at this
    have := finished_of_stuck hi hB hst
    rw [hnf] at this
    exact absurd this (by decide)
  · simp only [stepBound] at hb
    omega
  · obtain ⟨sched', s', hr, hmax⟩ :=
      exists_maximal_extension (stepBound N N - s.progress).toNat s hi (by omega)
    have hi' := inv_run sched' hi hr
    have hf' := finished_of_stuck hi' hB hmax
    exact ⟨sched', s', hr, hf', fun hN => iterations_of_finished hi' hN hf'⟩

/-- Instance of C8 at `NBUFF = 10`, `N = 2`.  In a state in which the consumer
is blocked and the producer holds the mutex a step is enabled, and the
execution extends to one in which both threads have returned after two
iterations each; in the final state of a complete run no step is enabled and
both loop indices are `2`. -/
theorem deadlock_freedom_and_completion_witness :
    (1 ≤ 10 ∧ run 2 2 schedProducerInside (init 10) = some stateProducerInside ∧
      stateProducerInside.finished = false ∧
      (∃ t, (step 2 2 t stateProducerInside).isSome = true) ∧
      (schedProducerInside.length : Int) ≤ 18 * max 2 0 + 2 ∧
      (∃ (sched' : List Role) (s' : State),
        run 2 2 sched' stateProducerInside = some s' ∧ s'.finished = true ∧
          ((0 : Int) ≤ 2 → s'.prod.i = 2 ∧ s'.cons.i = 2))) ∧
    (run 2 2 schedComplete2 (init 10) = some stateComplete2 ∧
      (∀ t, step 2 2 t stateComplete2 = none) ∧
      stateComplete2.finished = true ∧
      (stateComplete2.prod.i = 2 ∧ stateComplete2.cons.i = 2)) :=
  ⟨⟨by decide, by decide, by decide,
    (deadlock_freedom_and_completion 10 2 (by decide) schedProducerInside stateProducerInside
      (by decide)).2.2.1 (by decide),
    (deadlock_freedom_and_completion 10 2 (by decide) schedProducerInside stateProducerInside
      (by decide)).2.2.2.2.2.2.1,
    (deadlock_freedom_and_completion 10 2 (by decide) schedProducerInside stateProducerInside
      (by decide)).2.2.2.2.2.2.2⟩,
   ⟨by decide, fun t => by cases t <;> rfl, by decide,
    (deadlock_freedom_and_completion 10 2 (by decide) schedComplete2 stateComplete2
      (by decide)).2.2.2.2.1 (by decide) (by decide)⟩⟩

/-- C9, as stated, fails: with `NBUFF = 10`, producer bound `3` and consumer
bound `2` the bounds differ, yet there is an execution after which both
threads have returned (one item is left in the buffer). -/
theorem mismatched_counts_can_complete :
    ¬ ∀ (Np Nc : Int) (sched : List Role) (s : State), 0 ≤ Np → 0 ≤ Nc → Np ≠ Nc →
        run Np Nc sched (init 10) = some s → s.finished = false := by
  intro hall
  have h := hall 3 2 schedProducerAhead stateProducerAhead (by decide) (by decide) (by decide)
    (by decide)
  exact absurd h (by decide)

/-- C9 (amended): with separate loop bounds `Np ≥ 0` for `produce` and
`Nc ≥ 0` for `consume` and `NBUFF ≥ 1`, if `Np < Nc`, or if
`Nc + NBUFF < Np`, then no reachable state has both threads returned; every
execution has at most `9 * Np + 9 * Nc + 2` steps; in a state with no enabled
step the thread with fewer iterations has returned and the other is blocked
at the `sem_wait` on its counting semaphore, whose value is `0` (the consumer
after `Np` iterations, respectively the producer after `Nc + NBUFF`); and
every execution can be extended to such a state. -/
theorem mismatched_counts_block (NBUFF : Nat) (Np Nc : Int) (hB : 1 ≤ NBUFF)
    (hNp : 0 ≤ Np) (hNc : 0 ≤ Nc) (hne : Np < Nc ∨ Nc + NBUFF < Np)
    (sched : List Role) (s : State) (h : run Np Nc sched (init NBUFF) = some s) :
    s.finished = false ∧
      (sched.length : Int) ≤ 9 * Np + 9 * Nc + 2 ∧
      ((∀ t, step Np Nc t s = none) →
        (Np < Nc →
          s.prod.pc = .returned ∧ s.cons.pc = .waitCount ∧ s.full = 0 ∧ s.cons.i = Np) ∧
        (Nc + NBUFF < Np →
          s.cons.pc = .returned ∧ s.prod.pc = .waitCount ∧ s.empty = 0 ∧
            s.prod.i = Nc + NBUFF)) ∧
      (∃ (sched' : List Role) (s' : State),
        run Np Nc sched' s = some s' ∧ ∀ t, step Np Nc t s' = none) := by
  have hi := inv_of_run h
  have h2 := hi.empty_eq
  have h3 := hi.full_eq
  have h4 := hi.count_eq
  have h6 := hi.prod_body
  have h7 := hi.prod_ret
  have h8 := hi.prod_le
  have h10 := hi.cons_body
  have h11 := hi.cons_ret
  have h12 := hi.cons_le
  have hb := progress_le_bound hi
  have hlen := progress_run sched h
  rw [progress_init] at hlen
  have hfin : s.finished = false := by
    cases hf : s.finished with
    | false => rfl
    | true =>
        exfalso
        simp only [State.finished, Bool.and_eq_true, beq_iff_eq] at hf
        obtain ⟨hp, hc⟩ := hf
        have h7 := h7 hp
        have h11 := h11 hc
        rw [hp, hc] at h2 h3 h4
        simp only [PC.beforeUpdate.eq_3, PC.afterUpdate.eq_5, PC.iterDone.eq_6,
          reduceCtorEq, imp_self, Bool.toNat_false, Nat.cast_zero] at h2 h3 h4
        omega
  refine ⟨hfin, ?_, ?_, ?_⟩
  · simp only [stepBound] at hb
    omega
  · intro hst
    rcases stuck_cases hi hB hst with ⟨hp, hc⟩ | ⟨hp, hc, hf⟩ | ⟨hp, hc, he⟩
    · simp [State.finished, hp, hc] at hfin
    · have h7 := h7 hp
      rw [hp, hc] at h2 h3 h4
      rw [hc] at h10
      simp only [PC.beforeUpdate.eq_3, PC.afterUpdate.eq_5, PC.iterDone.eq_6,
        PC.inBody.eq_3, reduceCtorEq, imp_self, Bool.toNat_false, Nat.cast_zero,
        forall_const] at h2 h3 h4 h10
      refine ⟨fun _ => ⟨hp, hc, hf, by omega⟩, fun hgt => ?_⟩
      exfalso
      omega
    · have h11 := h11 hc
      rw [hp, hc] at h2 h3 h4
      rw [hp] at h6
      simp only [PC.beforeUpdate.eq_3, PC.afterUpdate.eq_5, PC.iterDone.eq_6,
        PC.inBody.eq_3, reduceCtorEq, imp_self, Bool.toNat_false, Nat.cast_zero,
        forall_const] at h2 h3 h4 h6
      refine ⟨fun hlt => ?_, fun _ => ⟨hc, hp, he, by omega⟩⟩
      exfalso
      omega
  · exact exists_maximal_extension (stepBound Np Nc - s.progress).toNat s hi (by omega)

/-- Instance of the amended C9 at `NBUFF = 10`, producer bound `2`, consumer
bound `3`: the producer has returned and the consumer is blocked at its third
`sem_wait(shared.full)`. -/
theorem mismatched_counts_block_witness :
    1 ≤ 10 ∧ (0 : Int) ≤ 2 ∧ (0 : Int) ≤ 3 ∧ ((2 : Int) < 3 ∨ (3 : Int) + (10 : Nat) < 2) ∧
      run 2 3 schedConsumerStarved (init 10) = some stateConsumerStarved ∧
      (∀ t, step 2 3 t stateConsumerStarved = none) ∧
      stateConsumerStarved.finished = false ∧
      (stateConsumerStarved.prod.pc = .returned ∧ stateConsumerStarved.cons.pc = .waitCount ∧
        stateConsumerStarved.full = 0 ∧ stateConsumerStarved.cons.i = 2) :=
  ⟨by decide, by decide, by decide, by decide, by decide,
    fun t => by cases t <;> rfl,
    (mismatched_counts_block 10 2 3 (by decide) (by decide) (by decide) (by decide)
      schedConsumerStarved stateConsumerStarved (by decide)).1,
    ((mismatched_counts_block 10 2 3 (by decide) (by decide) (by decide) (by decide)
      schedConsumerStarved stateConsumerStarved (by decide)).2.2.1
        (fun t => by cases t <;> rfl)).1 (by decide)⟩

/-- C10 (exact slot accounting): in every reachable state,
`empty + full + (number of threads in flight) = NBUFF` and
`full ≤ shared.count ≤ NBUFF - empty`; in particular `empty + full` is
`NBUFF`, `NBUFF - 1` or `NBUFF - 2`, and both counting semaphores stay within
`[0, NBUFF]`. -/
theorem exact_slot_accounting (NBUFF : Nat) (nitems : Int) (sched : List Role) (s : State)
    (h : run nitems nitems sched (init NBUFF) = some s) :
    s.empty + s.full + s.prod.pc.inFlight.toNat + s.cons.pc.inFlight.toNat = NBUFF ∧
      (s.full : Int) ≤ s.count ∧ s.count ≤ NBUFF - (s.empty : Int) ∧
      (s.empty + s.full = NBUFF ∨ s.empty + s.full + 1 = NBUFF ∨
        s.empty + s.full + 2 = NBUFF) ∧
      s.empty ≤ NBUFF ∧ s.full ≤ NBUFF := by
  have hi := inv_of_run h
  have h2 := hi.empty_eq
  have h3 := hi.full_eq
  have b1 := toNat_le_one s.prod.pc.inFlight
  have b2 := toNat_le_one s.cons.pc.inFlight
  rw [PC.inFlight_toNat] at b1 b2 ⊢
  rw [PC.inFlight_toNat]
  refine ⟨?_, ?_, ?_, ?_, ?_, ?_⟩ <;> omega

/-- Instance of C10 at `NBUFF = 10`, `nitems = 2`, in a state with both threads
in flight (`empty + full = NBUFF - 2`). -/
theorem exact_slot_accounting_witness :
    run 2 2 schedBothInFlight (init 10) = some stateBothInFlight ∧
      (stateBothInFlight.empty + stateBothInFlight.full
          + stateBothInFlight.prod.pc.inFlight.toNat
          + stateBothInFlight.cons.pc.inFlight.toNat = 10 ∧
        (stateBothInFlight.full : Int) ≤ stateBothInFlight.count ∧
        stateBothInFlight.count ≤ (10 : Nat) - (stateBothInFlight.empty : Int) ∧
        (stateBothInFlight.empty + stateBothInFlight.full = 10 ∨
          stateBothInFlight.empty + stateBothInFlight.full + 1 = 10 ∨
          stateBothInFlight.empty + stateBothInFlight.full + 2 = 10) ∧
        stateBothInFlight.empty ≤ 10 ∧ stateBothInFlight.full ≤ 10) :=
  ⟨by decide, exact_slot_accounting 10 2 schedBothInFlight stateBothInFlight (by decide)⟩

end ProducerConsumer
